import Mathlib

/-! A hash-chained ledger of blocks (`main.go`).

A shallow embedding of the block model, the digest, the block factory, the
validator, the longest-chain replacement rule and the POST handler of `main.go`,
followed by the properties proved about them.

Conventions of the embedding:

* Go's `int` is the 64-bit two's-complement integer: a value is an `Int` and the
  result of `+` is brought back into `[-2^63, 2^63)` by `wrapInt`.
* A Go `string` is a Lean `String`; its bytes are its UTF-8 encoding.
* The package-level variable `Blockchain` is passed explicitly: a function that
  reads it takes the chain as an argument, one that assigns it returns the new
  chain.
* `time.Now().String()` is an input: the text of the clock reading.
-/

namespace Ledger

/-! ## SHA-256 (`crypto/sha256`) and hexadecimal text (`encoding/hex`) -/

/-- The sum of two 32-bit words, modulo `2^32`. -/
def add32 (a b : Nat) : Nat := (a + b) % 4294967296

/-- Rotation of a 32-bit word to the right by `n` bits, `0 < n < 32`. -/
def rotr32 (x n : Nat) : Nat := ((x >>> n) ||| (x <<< (32 - n))) % 4294967296

/-- Bitwise complement of a 32-bit word. -/
def not32 (x : Nat) : Nat := x ^^^ 4294967295

def ch (x y z : Nat) : Nat := (x &&& y) ^^^ (not32 x &&& z)

def maj (x y z : Nat) : Nat := (x &&& y) ^^^ (x &&& z) ^^^ (y &&& z)

def bigSigma0 (x : Nat) : Nat := rotr32 x 2 ^^^ rotr32 x 13 ^^^ rotr32 x 22

def bigSigma1 (x : Nat) : Nat := rotr32 x 6 ^^^ rotr32 x 11 ^^^ rotr32 x 25

def smallSigma0 (x : Nat) : Nat := rotr32 x 7 ^^^ rotr32 x 18 ^^^ (x >>> 3)

def smallSigma1 (x : Nat) : Nat := rotr32 x 17 ^^^ rotr32 x 19 ^^^ (x >>> 10)

/-- The sixty-four round constants, in decimal. -/
def roundConstants : List Nat :=
  [1116352408, 1899447441, 3049323471, 3921009573, 961987163, 1508970993,
   2453635748, 2870763221, 3624381080, 310598401, 607225278, 1426881987,
   1925078388, 2162078206, 2614888103, 3248222580, 3835390401, 4022224774,
   264347078, 604807628, 770255983, 1249150122, 1555081692, 1996064986,
   2554220882, 2821834349, 2952996808, 3210313671, 3336571891, 3584528711,
   113926993, 338241895, 666307205, 773529912, 1294757372, 1396182291,
   1695183700, 1986661051, 2177026350, 2456956037, 2730485921, 2820302411,
   3259730800, 3345764771, 3516065817, 3600352804, 4094571909, 275423344,
   430227734, 506948616, 659060556, 883997877, 958139571, 1322822218,
   1537002063, 1747873779, 1955562222, 2024104815, 2227730452, 2361852424,
   2428436474, 2756734187, 3204031479, 3329325298]

/-- The eight working words of the compression function. -/
structure HashState where
  a : Nat
  b : Nat
  c : Nat
  d : Nat
  e : Nat
  f : Nat
  g : Nat
  h : Nat
  deriving DecidableEq, Repr

def initialState : HashState :=
  ⟨1779033703, 3144134277, 1013904242, 2773480762,
   1359893119, 2600822924, 528734635, 1541459225⟩

/-- The big-endian 32-bit words of a byte sequence, four bytes a word. -/
def wordsOfBytes : List Nat → List Nat
  | b0 :: b1 :: b2 :: b3 :: rest =>
      (b0 * 16777216 + b1 * 65536 + b2 * 256 + b3) :: wordsOfBytes rest
  | _ => []

/-- Extends a message schedule by `n` further words. -/
def extendSchedule : Nat → List Nat → List Nat
  | 0, w => w
  | n + 1, w =>
      let i := w.length
      let next := add32 (add32 (smallSigma1 (w.getD (i - 2) 0)) (w.getD (i - 7) 0))
                        (add32 (smallSigma0 (w.getD (i - 15) 0)) (w.getD (i - 16) 0))
      extendSchedule n (w ++ [next])

/-- The sixty-four schedule words of one 64-byte block. -/
def schedule (block : List Nat) : List Nat := extendSchedule 48 (wordsOfBytes block)

/-- One round, with round constant and schedule word paired in `kw`. -/
def round (s : HashState) (kw : Nat × Nat) : HashState :=
  let t1 := add32 (add32 (add32 s.h (bigSigma1 s.e)) (add32 (ch s.e s.f s.g) kw.1)) kw.2
  let t2 := add32 (bigSigma0 s.a) (maj s.a s.b s.c)
  ⟨add32 t1 t2, s.a, s.b, s.c, add32 s.d t1, s.e, s.f, s.g⟩

/-- The compression of one 64-byte block into the running state. -/
def compress (s : HashState) (block : List Nat) : HashState :=
  let r := (roundConstants.zip (schedule block)).foldl round s
  ⟨add32 s.a r.a, add32 s.b r.b, add32 s.c r.c, add32 s.d r.d,
   add32 s.e r.e, add32 s.f r.f, add32 s.g r.g, add32 s.h r.h⟩

/-- The eight bytes of a 64-bit length, most significant first. -/
def lengthBytes (n : Nat) : List Nat :=
  [(n >>> 56) % 256, (n >>> 48) % 256, (n >>> 40) % 256, (n >>> 32) % 256,
   (n >>> 24) % 256, (n >>> 16) % 256, (n >>> 8) % 256, n % 256]

/-- The padded message: the byte `0x80`, zero bytes up to 56 modulo 64, and the
length in bits. -/
def pad (msg : List Nat) : List Nat :=
  msg ++ [128] ++ List.replicate ((119 - msg.length % 64) % 64) 0
    ++ lengthBytes ((msg.length * 8) % 18446744073709551616)

/-- The first `n` consecutive 64-byte blocks of a byte sequence. -/
def blocksOf : Nat → List Nat → List (List Nat)
  | 0, _ => []
  | n + 1, l => l.take 64 :: blocksOf n (l.drop 64)

/-- The four bytes of a 32-bit word, most significant first. -/
def bytesOfWord (w : Nat) : List Nat :=
  [(w >>> 24) % 256, (w >>> 16) % 256, (w >>> 8) % 256, w % 256]

/-- The thirty-two bytes of a state. -/
def HashState.toBytes (s : HashState) : List Nat :=
  bytesOfWord s.a ++ bytesOfWord s.b ++ bytesOfWord s.c ++ bytesOfWord s.d ++
  bytesOfWord s.e ++ bytesOfWord s.f ++ bytesOfWord s.g ++ bytesOfWord s.h

/-- SHA-256 of a byte sequence: `h := sha256.New(); h.Write(msg); h.Sum(nil)`. -/
def sha256 (msg : List Nat) : List Nat :=
  let padded := pad msg
  ((blocksOf (padded.length / 64) padded).foldl compress initialState).toBytes

/-- The lowercase hexadecimal digit of a value below sixteen. -/
def hexDigit (n : Nat) : Char := "0123456789abcdef".data.getD n '0'

/-- Two lowercase hexadecimal digits a byte: `hex.EncodeToString`. -/
def hexEncodeToString (bytes : List Nat) : String :=
  String.mk (bytes.flatMap fun b => [hexDigit (b / 16), hexDigit (b % 16)])

/-- The UTF-8 bytes of a code point. -/
def utf8Bytes (c : Nat) : List Nat :=
  if c < 128 then [c]
  else if c < 2048 then [192 + c / 64, 128 + c % 64]
  else if c < 65536 then [224 + c / 4096, 128 + c / 64 % 64, 128 + c % 64]
  else [240 + c / 262144, 128 + c / 4096 % 64, 128 + c / 64 % 64, 128 + c % 64]

/-- The bytes of a string: `[]byte(s)`. -/
def bytesOfString (s : String) : List Nat := s.data.flatMap fun c => utf8Bytes c.toNat

/-! ## Go integers and strings -/

/-- The value of a Go `int` expression whose exact result is `x`: the 64-bit
two's-complement reduction into `[-2^63, 2^63)`. -/
def wrapInt (x : Int) : Int :=
  (x + 9223372036854775808) % 18446744073709551616 - 9223372036854775808

/-- The conversion `string(i)` of an `int`: the one-rune string of the code point
`i`, and of U+FFFD when `i` is no valid code point. -/
def stringOfInt (i : Int) : String :=
  if 0 ≤ i ∧ i.toNat.isValidChar then String.singleton (Char.ofNat i.toNat)
  else String.singleton (Char.ofNat 65533)

/-- A Go `error` value; `none` stands for `nil`. -/
abbrev GoError := Option String

/-! ## The data model -/

/-- The type `Block`, its fields in the order of declaration. -/
structure Block where
  Index : Int
  Timestamp : String
  BPM : Int
  Hash : String
  PrevHash : String
  deriving DecidableEq, Repr

/-- The type `Message`, the payload of a POST request. -/
structure Message where
  BPM : Int
  deriving DecidableEq, Repr

/-! ## Digest, block factory, validator, chain replacement -/

/-- The local `record` of `calculateHash`: the text that is hashed. -/
def record (block : Block) : String :=
  stringOfInt block.Index ++ block.Timestamp ++ stringOfInt block.BPM ++ block.PrevHash

/-- The function `calculateHash`: SHA-256 of `record`, in hexadecimal. -/
def calculateHash (block : Block) : String :=
  hexEncodeToString (sha256 (bytesOfString (record block)))

/-- The function `generateBlock`; `now` is the text of `time.Now()`. -/
def generateBlock (oldBlock : Block) (BPM : Int) (now : String) : Block × GoError :=
  let newBlock : Block := ⟨0, "", 0, "", ""⟩
  let newBlock := { newBlock with Index := wrapInt (oldBlock.Index + 1) }
  let newBlock := { newBlock with Timestamp := now }
  let newBlock := { newBlock with BPM := BPM }
  let newBlock := { newBlock with PrevHash := oldBlock.Hash }
  let newBlock := { newBlock with Hash := calculateHash newBlock }
  (newBlock, none)

/-- The function `isBlockValid`. -/
def isBlockValid (newBlock oldBlock : Block) : Bool :=
  if newBlock.Index ≠ wrapInt (oldBlock.Index + 1) then false
  else if newBlock.PrevHash ≠ oldBlock.Hash then false
  else if calculateHash newBlock ≠ newBlock.Hash then false
  else true

/-- The function `replaceChain`: the value of `Blockchain` after the call. -/
def replaceChain (Blockchain newBlocks : List Block) : List Block :=
  if newBlocks.length > Blockchain.length then newBlocks else Blockchain

/-! ## The POST handler -/

/-- The value handed to `respondWithJSON` to be rendered as JSON. -/
inductive Payload where
  | requestBody
  | message (m : Message)
  | block (b : Block)
  deriving DecidableEq, Repr

/-- A response as written: the status code and the value rendered in the body. -/
structure Response where
  code : Nat
  payload : Payload
  deriving DecidableEq, Repr

/-- The function `respondWithJSON`. `json.MarshalIndent` returns no error on the
three kinds of payload the handler passes (integers and strings, and a request
body without exported fields), so the given code is the one written. -/
def respondWithJSON (code : Nat) (payload : Payload) : Response := ⟨code, payload⟩

/-- What a handler leaves behind: the chain, and the response it wrote, `none`
when it stopped on an index out of range before writing one. -/
structure Outcome where
  chain : List Block
  response : Option Response
  deriving DecidableEq, Repr

/-- The end of `handleWriteBlock`: the validity test of `newBlock` against
`Blockchain[len(Blockchain)-1]`, the append, `replaceChain` and the response. -/
def commitStep (Blockchain : List Block) (newBlock : Block) : Outcome :=
  match Blockchain.getLast? with
  | none => ⟨Blockchain, none⟩
  | some last =>
      let Blockchain :=
        if isBlockValid newBlock last then
          let newBlockchain := Blockchain ++ [newBlock]
          replaceChain Blockchain newBlockchain
        else Blockchain
      ⟨Blockchain, some (respondWithJSON 201 (.block newBlock))⟩

/-- The function `handleWriteBlock`. `decoded` is what `decoder.Decode(&m)` gave:
`none` for an error, the message otherwise; `now` is the text of `time.Now()`. -/
def handleWriteBlock (Blockchain : List Block) (decoded : Option Message) (now : String) :
    Outcome :=
  match decoded with
  | none => ⟨Blockchain, some (respondWithJSON 400 .requestBody)⟩
  | some m =>
      match Blockchain.getLast? with
      | none => ⟨Blockchain, none⟩
      | some last =>
          match generateBlock last m.BPM now with
          | (_, some _) => ⟨Blockchain, some (respondWithJSON 500 (.message m))⟩
          | (newBlock, none) => commitStep Blockchain newBlock

/-! ## Start-up -/

/-- The genesis block of `main`, `t` the text of its clock reading. -/
def genesisBlock (t : String) : Block := ⟨0, t, 0, "", ""⟩

/-- The assignment `Blockchain = append(Blockchain, genesisBlock)` of `main`. -/
def appendGenesis (Blockchain : List Block) (t : String) : List Block :=
  Blockchain ++ [genesisBlock t]

/-- The chains the program can hold: the chain of the genesis block alone, and
what a POST request leaves of such a chain. -/
inductive Reachable : List Block → Prop where
  | genesis (t0 : String) : Reachable (appendGenesis [] t0)
  | post {chain : List Block} (decoded : Option Message) (now : String) :
      Reachable chain → Reachable (handleWriteBlock chain decoded now).chain

/-! ## The reference notions the properties are stated against -/

/-- The preimage as the specification words it: index and payload in decimal
text, then the timestamp and the previous hash. -/
def recordDecimal (block : Block) : String :=
  toString block.Index ++ block.Timestamp ++ toString block.BPM ++ block.PrevHash

/-- Every block after the first continues its predecessor: index one more,
previous hash the predecessor's hash. -/
def linksValid : List Block → Bool
  | [] => true
  | [_] => true
  | p :: c :: rest =>
      (c.Index == p.Index + 1 && c.PrevHash == p.Hash) && linksValid (c :: rest)

/-- A sequence that is valid end to end, as the specification words it: the first
block has index 0 and an empty previous hash, the links hold, and the hash of
every block is the digest of its fields. -/
def internallyValid (S : List Block) : Bool :=
  (match S with
    | [] => true
    | b :: _ => b.Index == 0 && b.PrevHash == "") &&
  linksValid S && S.all fun b => b.Hash == calculateHash b

/-! ## Lemmas on the digest -/

theorem length_toBytes (s : HashState) : s.toBytes.length = 32 := by
  simp [HashState.toBytes, bytesOfWord]

theorem length_sha256 (msg : List Nat) : (sha256 msg).length = 32 := by
  simp [sha256, length_toBytes]

theorem length_hexEncodeToString (bytes : List Nat) :
    (hexEncodeToString bytes).length = 2 * bytes.length := by
  unfold hexEncodeToString
  induction bytes with
  | nil => rfl
  | cons b bs ih =>
      simp only [String.length, List.flatMap_cons, List.length_append, List.length_cons,
        List.length_nil] at ih ⊢
      omega

/-- A digest is sixty-four characters long. -/
theorem length_calculateHash (block : Block) : (calculateHash block).length = 64 := by
  simp [calculateHash, length_hexEncodeToString, length_sha256]

theorem calculateHash_ne_empty (block : Block) : calculateHash block ≠ "" := by
  intro h
  have := length_calculateHash block
  rw [h] at this
  simp at this

/-- The digest does not read the field `Hash`. -/
theorem calculateHash_congr (b c : Block) (hi : b.Index = c.Index)
    (ht : b.Timestamp = c.Timestamp) (hb : b.BPM = c.BPM) (hp : b.PrevHash = c.PrevHash) :
    calculateHash b = calculateHash c := by
  simp [calculateHash, record, hi, ht, hb, hp]

/-! ## Lemmas on the operations -/

theorem isBlockValid_eq_true_iff (c p : Block) :
    isBlockValid c p = true ↔
      c.Index = wrapInt (p.Index + 1) ∧ c.PrevHash = p.Hash ∧ calculateHash c = c.Hash := by
  unfold isBlockValid
  by_cases h1 : c.Index = wrapInt (p.Index + 1) <;>
  by_cases h2 : c.PrevHash = p.Hash <;>
  by_cases h3 : calculateHash c = c.Hash <;> simp [h1, h2, h3]

theorem generateBlock_fst (old : Block) (BPM : Int) (now : String) :
    (generateBlock old BPM now).1 =
      ⟨wrapInt (old.Index + 1), now, BPM,
        calculateHash ⟨wrapInt (old.Index + 1), now, BPM, "", old.Hash⟩, old.Hash⟩ := rfl

theorem generateBlock_snd (old : Block) (BPM : Int) (now : String) :
    (generateBlock old BPM now).2 = none := rfl

theorem generateBlock_hash (old : Block) (BPM : Int) (now : String) :
    calculateHash (generateBlock old BPM now).1 = (generateBlock old BPM now).1.Hash := by
  rw [generateBlock_fst]
  exact calculateHash_congr _ _ rfl rfl rfl rfl

theorem isBlockValid_generateBlock (old : Block) (BPM : Int) (now : String) :
    isBlockValid (generateBlock old BPM now).1 old = true := by
  rw [isBlockValid_eq_true_iff]
  exact ⟨rfl, rfl, generateBlock_hash old BPM now⟩

theorem replaceChain_append (chain : List Block) (b : Block) :
    replaceChain chain (chain ++ [b]) = chain ++ [b] := by
  simp [replaceChain]

theorem commitStep_of_last (chain : List Block) (nb last : Block)
    (h : chain.getLast? = some last) :
    commitStep chain nb =
      ⟨if isBlockValid nb last then chain ++ [nb] else chain,
        some ⟨201, .block nb⟩⟩ := by
  simp [commitStep, h, replaceChain_append, respondWithJSON]

/-- On a chain with a last block and a decoded message, the handler appends the
generated block and answers 201 with it. -/
theorem handleWriteBlock_of_last (chain : List Block) (m : Message) (now : String)
    (last : Block) (h : chain.getLast? = some last) :
    handleWriteBlock chain (some m) now =
      ⟨chain ++ [(generateBlock last m.BPM now).1],
        some ⟨201, .block (generateBlock last m.BPM now).1⟩⟩ := by
  have hg : generateBlock last m.BPM now = ((generateBlock last m.BPM now).1, none) := rfl
  simp only [handleWriteBlock, h]
  rw [hg]
  simp only []
  rw [commitStep_of_last chain _ last h, isBlockValid_generateBlock]
  simp

/-- The chain a POST request leaves is the chain it found, or that chain with the
block generated from its last block appended. -/
theorem handleWriteBlock_chain (chain : List Block) (decoded : Option Message)
    (now : String) :
    (handleWriteBlock chain decoded now).chain = chain ∨
      ∃ m last, decoded = some m ∧ chain.getLast? = some last ∧
        (handleWriteBlock chain decoded now).chain =
          chain ++ [(generateBlock last m.BPM now).1] := by
  cases decoded with
  | none => exact Or.inl rfl
  | some m =>
      cases h : chain.getLast? with
      | none => left; simp [handleWriteBlock, h]
      | some last =>
          right
          exact ⟨m, last, rfl, rfl, by rw [handleWriteBlock_of_last chain m now last h]⟩

/-! ## Reachable chains -/

theorem wrapInt_wrapInt_add_one (x : Int) : wrapInt (wrapInt x + 1) = wrapInt (x + 1) := by
  unfold wrapInt
  omega

theorem wrapInt_of_lt (n : Nat) (h : n < 9223372036854775808) : wrapInt n = n := by
  unfold wrapInt
  omega

theorem getElem?_append_singleton (chain : List Block) (nb b : Block) (i : Nat)
    (h : (chain ++ [nb])[i]? = some b) :
    (i < chain.length ∧ chain[i]? = some b) ∨ (i = chain.length ∧ b = nb) := by
  rcases Nat.lt_trichotomy i chain.length with hlt | heq | hgt
  · left
    rw [List.getElem?_append_left hlt] at h
    exact ⟨hlt, h⟩
  · right
    subst heq
    simp at h
    exact ⟨rfl, h.symm⟩
  · exfalso
    have : (chain ++ [nb]).length ≤ i := by simp; omega
    rw [List.getElem?_eq_none this] at h
    exact Option.noConfusion h

/-- What holds of every chain the program can hold: it has a first block, which is
the genesis block with its empty `Hash`; the block at position `i` has index `i`
(as an `int`); every later block carries its predecessor's hash and its own
digest. -/
theorem reachable_invariant (B : List Block) (h : Reachable B) :
    B ≠ [] ∧
    (∃ t0, B[0]? = some (genesisBlock t0)) ∧
    (∀ (i : Nat) (b : Block), B[i]? = some b → b.Index = wrapInt i) ∧
    (∀ (i : Nat) (p c : Block), B[i]? = some p → B[i + 1]? = some c →
      c.PrevHash = p.Hash ∧ c.Hash = calculateHash c) := by
  induction h with
  | genesis t0 =>
      refine ⟨by simp [appendGenesis], ⟨t0, rfl⟩, ?_, ?_⟩
      · intro i b hb
        cases i with
        | zero =>
            simp [appendGenesis] at hb
            rw [← hb]
            rfl
        | succ n => simp [appendGenesis] at hb
      · intro i p c _ hc
        simp [appendGenesis] at hc
  | @post chain decoded now _ ih =>
      obtain ⟨hne, ⟨t0, h0⟩, hidx, hlink⟩ := ih
      rcases handleWriteBlock_chain chain decoded now with heq | ⟨m, last, -, hlast, heq⟩
      · rw [heq]
        exact ⟨hne, ⟨t0, h0⟩, hidx, hlink⟩
      · rw [heq]
        have hpos : 0 < chain.length := List.length_pos.mpr hne
        have hlast' : chain[chain.length - 1]? = some last := by
          rw [← List.getLast?_eq_getElem?]
          exact hlast
        refine ⟨by simp, ⟨t0, ?_⟩, ?_, ?_⟩
        · rw [List.getElem?_append_left hpos]
          exact h0
        · intro i b hb
          rcases getElem?_append_singleton chain _ b i hb with ⟨-, hb'⟩ | ⟨hi, hb'⟩
          · exact hidx i b hb'
          · subst hi hb'
            rw [generateBlock_fst]
            show wrapInt (last.Index + 1) = wrapInt chain.length
            rw [hidx _ last hlast', wrapInt_wrapInt_add_one]
            congr 1
            omega
        · intro i p c hp hc
          rcases getElem?_append_singleton chain _ c (i + 1) hc with ⟨hlt, hc'⟩ | ⟨hi, hc'⟩
          · have hp' : chain[i]? = some p := by
              rw [List.getElem?_append_left (by omega)] at hp
              exact hp
            exact hlink i p c hp' hc'
          · have hp' : chain[chain.length - 1]? = some p := by
              rw [List.getElem?_append_left (by omega)] at hp
              rw [← hi]
              exact hp
            rw [hlast'] at hp'
            cases hp'
            subst hc'
            exact ⟨rfl, (generateBlock_hash last m.BPM now).symm⟩

/-- In a chain of the program of at most `2^64` blocks, blocks at different
positions have different indices. -/
theorem reachable_index_injective (B : List Block) (h : Reachable B)
    (hlen : B.length ≤ 18446744073709551616) (i j : Nat) (bi bj : Block)
    (hi : B[i]? = some bi) (hj : B[j]? = some bj) (heq : bi.Index = bj.Index) : i = j := by
  obtain ⟨-, -, hidx, -⟩ := reachable_invariant B h
  obtain ⟨hil, -⟩ := List.getElem?_eq_some.mp hi
  obtain ⟨hjl, -⟩ := List.getElem?_eq_some.mp hj
  rw [hidx i bi hi, hidx j bj hj] at heq
  unfold wrapInt at heq
  omega

/-! ## The validator -/

/-- C1: `isBlockValid c p` is true exactly when `c.Index == p.Index + 1`,
`c.PrevHash == p.Hash` and `calculateHash(c) == c.Hash` all hold, and false as
soon as one of the three fails (`+` is Go's addition of `int`). -/
theorem isBlockValid_exactly (c p : Block) :
    (isBlockValid c p = true ↔
      c.Index = wrapInt (p.Index + 1) ∧ c.PrevHash = p.Hash ∧ calculateHash c = c.Hash) ∧
    (isBlockValid c p = false ↔
      c.Index ≠ wrapInt (p.Index + 1) ∨ c.PrevHash ≠ p.Hash ∨ calculateHash c ≠ c.Hash) := by
  refine ⟨isBlockValid_eq_true_iff c p, ?_⟩
  rw [← Bool.not_eq_true, isBlockValid_eq_true_iff]
  tauto

/-! ## The POST handler on a decoded payload -/

/-- C2: on a non-empty chain and a decoded payload, `handleWriteBlock` leaves the
chain one block longer, the new last block is the block of the response, and the
status is 201. -/
theorem handleWriteBlock_created (chain : List Block) (m : Message) (now : String)
    (h : chain ≠ []) :
    (handleWriteBlock chain (some m) now).chain.length = chain.length + 1 ∧
    ∃ b, (handleWriteBlock chain (some m) now).chain = chain ++ [b] ∧
      (handleWriteBlock chain (some m) now).chain.getLast? = some b ∧
      (handleWriteBlock chain (some m) now).response = some ⟨201, .block b⟩ := by
  obtain ⟨last, hl⟩ : ∃ last, chain.getLast? = some last := by
    cases hc : chain.getLast? with
    | none => exact absurd (List.getLast?_eq_none_iff.mp hc) h
    | some last => exact ⟨last, rfl⟩
  rw [handleWriteBlock_of_last chain m now last hl]
  exact ⟨by simp, _, rfl, by simp, rfl⟩

theorem handleWriteBlock_created_witness :
    appendGenesis [] "2026-11-01 19:51:00 +0000 UTC" ≠ [] ∧
    ((handleWriteBlock (appendGenesis [] "2026-11-01 19:51:00 +0000 UTC") (some ⟨80⟩)
        "2026-11-01 19:52:30 +0000 UTC").chain.length =
      (appendGenesis [] "2026-11-01 19:51:00 +0000 UTC").length + 1 ∧
    ∃ b, (handleWriteBlock (appendGenesis [] "2026-11-01 19:51:00 +0000 UTC") (some ⟨80⟩)
        "2026-11-01 19:52:30 +0000 UTC").chain =
        appendGenesis [] "2026-11-01 19:51:00 +0000 UTC" ++ [b] ∧
      (handleWriteBlock (appendGenesis [] "2026-11-01 19:51:00 +0000 UTC") (some ⟨80⟩)
        "2026-11-01 19:52:30 +0000 UTC").chain.getLast? = some b ∧
      (handleWriteBlock (appendGenesis [] "2026-11-01 19:51:00 +0000 UTC") (some ⟨80⟩)
        "2026-11-01 19:52:30 +0000 UTC").response = some ⟨201, .block b⟩) :=
  ⟨by simp [appendGenesis],
    handleWriteBlock_created _ _ _ (by simp [appendGenesis])⟩

set_option maxRecDepth 100000 in
/-- C3: two POST requests meet on the genesis chain. The second generates its
block on the genesis block (payload 90); before it reaches the validity test the
first (payload 80) has appended its own block. The end of `handleWriteBlock` then
tests the second block against the new last block: `isBlockValid` refuses it, the
chain is left as it was, and the answer is still 201 with the refused block. -/
theorem commitStep_refused_answers_created :
    generateBlock (genesisBlock "2026-11-01 19:51:00 +0000 UTC") 90
        "2026-11-01 19:52:29 +0000 UTC" =
      (⟨1, "2026-11-01 19:52:29 +0000 UTC", 90,
        "22630452b710ef45e1a6f9fe34c1c1158057884b421407661ba42d6e248bb47d", ""⟩, none) ∧
    (handleWriteBlock [genesisBlock "2026-11-01 19:51:00 +0000 UTC"] (some ⟨80⟩)
        "2026-11-01 19:52:30 +0000 UTC").chain =
      [genesisBlock "2026-11-01 19:51:00 +0000 UTC",
       ⟨1, "2026-11-01 19:52:30 +0000 UTC", 80,
        "d6e5dfc0a37395651236e7c13b202fcb9cde661a57ad17de516acc04c0e25073", ""⟩] ∧
    isBlockValid
        ⟨1, "2026-11-01 19:52:29 +0000 UTC", 90,
          "22630452b710ef45e1a6f9fe34c1c1158057884b421407661ba42d6e248bb47d", ""⟩
        ⟨1, "2026-11-01 19:52:30 +0000 UTC", 80,
          "d6e5dfc0a37395651236e7c13b202fcb9cde661a57ad17de516acc04c0e25073", ""⟩ = false ∧
    commitStep
        [genesisBlock "2026-11-01 19:51:00 +0000 UTC",
         ⟨1, "2026-11-01 19:52:30 +0000 UTC", 80,
          "d6e5dfc0a37395651236e7c13b202fcb9cde661a57ad17de516acc04c0e25073", ""⟩]
        ⟨1, "2026-11-01 19:52:29 +0000 UTC", 90,
          "22630452b710ef45e1a6f9fe34c1c1158057884b421407661ba42d6e248bb47d", ""⟩ =
      ⟨[genesisBlock "2026-11-01 19:51:00 +0000 UTC",
         ⟨1, "2026-11-01 19:52:30 +0000 UTC", 80,
          "d6e5dfc0a37395651236e7c13b202fcb9cde661a57ad17de516acc04c0e25073", ""⟩],
        some ⟨201, .block ⟨1, "2026-11-01 19:52:29 +0000 UTC", 90,
          "22630452b710ef45e1a6f9fe34c1c1158057884b421407661ba42d6e248bb47d", ""⟩⟩⟩ := by
  decide!

/-! ## Chain replacement -/

/-- C4, as stated, fails: a two-block sequence whose first block has index 7 is
not valid end to end, and `replaceChain` makes it the chain in place of the
one-block genesis chain. -/
theorem replaceChain_adopts_invalid :
    ¬ (replaceChain [genesisBlock "2026-11-01 19:51:00 +0000 UTC"]
          [⟨7, "a", 1, "x", "y"⟩, ⟨9, "b", 2, "z", "w"⟩] =
          [⟨7, "a", 1, "x", "y"⟩, ⟨9, "b", 2, "z", "w"⟩] ↔
        ([⟨7, "a", 1, "x", "y"⟩, ⟨9, "b", 2, "z", "w"⟩] : List Block).length >
            [genesisBlock "2026-11-01 19:51:00 +0000 UTC"].length ∧
          internallyValid [⟨7, "a", 1, "x", "y"⟩, ⟨9, "b", 2, "z", "w"⟩] = true) := by
  have hv : internallyValid [⟨7, "a", 1, "x", "y"⟩, ⟨9, "b", 2, "z", "w"⟩] = false := by
    simp [internallyValid]
  rw [hv]
  simp [replaceChain]

/-- C4, amended: `replaceChain(S)` makes `S` the chain when
`len(S) > len(current)`, whether or not `S` is valid end to end, and leaves the
chain as it was in every other case. -/
theorem replaceChain_by_length_alone (current S : List Block) :
    (S.length > current.length → replaceChain current S = S) ∧
    (¬ S.length > current.length → replaceChain current S = current) := by
  constructor
  · intro h
    simp [replaceChain, h]
  · intro h
    simp [replaceChain, h]

/-! ## Invariants of the reachable chains -/

/-- C5: in every chain reached from the one-block genesis chain by POST requests,
the first block has index 0 and an empty `PrevHash`, and every later block has
`Index == predecessor.Index + 1` and `PrevHash == predecessor.Hash`; the sum is
Go's, and is the sum of integers as long as the chain has at most `2^63`
blocks. -/
theorem reachable_chain_linked (B : List Block) (h : Reachable B) :
    (∃ g, B[0]? = some g ∧ g.Index = 0 ∧ g.PrevHash = "") ∧
    (∀ (i : Nat) (p c : Block), B[i]? = some p → B[i + 1]? = some c →
      c.Index = wrapInt (p.Index + 1) ∧ c.PrevHash = p.Hash ∧
      (B.length ≤ 9223372036854775808 → c.Index = p.Index + 1)) := by
  obtain ⟨-, ⟨t0, h0⟩, hidx, hlink⟩ := reachable_invariant B h
  refine ⟨⟨genesisBlock t0, h0, rfl, rfl⟩, ?_⟩
  intro i p c hp hc
  have hpi := hidx i p hp
  have hci := hidx (i + 1) c hc
  refine ⟨?_, (hlink i p c hp hc).1, ?_⟩
  · rw [hci, hpi, wrapInt_wrapInt_add_one]
    congr 1
  · intro hlen
    obtain ⟨hlt, -⟩ := List.getElem?_eq_some.mp hc
    rw [hci, hpi, wrapInt_of_lt (i + 1) (by omega), wrapInt_of_lt i (by omega)]
    push_cast
    rfl

theorem reachable_chain_linked_witness :
    Reachable (handleWriteBlock (appendGenesis [] "2026-11-01 19:51:00 +0000 UTC")
      (some ⟨80⟩) "2026-11-01 19:52:30 +0000 UTC").chain ∧
    ((∃ g, (handleWriteBlock (appendGenesis [] "2026-11-01 19:51:00 +0000 UTC")
        (some ⟨80⟩) "2026-11-01 19:52:30 +0000 UTC").chain[0]? = some g ∧
        g.Index = 0 ∧ g.PrevHash = "") ∧
    (∀ (i : Nat) (p c : Block),
      (handleWriteBlock (appendGenesis [] "2026-11-01 19:51:00 +0000 UTC")
        (some ⟨80⟩) "2026-11-01 19:52:30 +0000 UTC").chain[i]? = some p →
      (handleWriteBlock (appendGenesis [] "2026-11-01 19:51:00 +0000 UTC")
        (some ⟨80⟩) "2026-11-01 19:52:30 +0000 UTC").chain[i + 1]? = some c →
      c.Index = wrapInt (p.Index + 1) ∧ c.PrevHash = p.Hash ∧
      ((handleWriteBlock (appendGenesis [] "2026-11-01 19:51:00 +0000 UTC")
        (some ⟨80⟩) "2026-11-01 19:52:30 +0000 UTC").chain.length ≤ 9223372036854775808 →
        c.Index = p.Index + 1))) :=
  ⟨.post _ _ (.genesis _), reachable_chain_linked _ (.post _ _ (.genesis _))⟩

/-- C6: the chain of the genesis block alone is a chain of the program, and the
block at its position 0 has the empty `Hash`, which is not the digest of its
fields. -/
theorem reachable_genesis_hash_not_digest :
    Reachable [genesisBlock "2026-11-01 19:51:00 +0000 UTC"] ∧
    [genesisBlock "2026-11-01 19:51:00 +0000 UTC"][0]? =
      some (genesisBlock "2026-11-01 19:51:00 +0000 UTC") ∧
    (genesisBlock "2026-11-01 19:51:00 +0000 UTC").Hash ≠
      calculateHash (genesisBlock "2026-11-01 19:51:00 +0000 UTC") :=
  ⟨Reachable.genesis "2026-11-01 19:51:00 +0000 UTC", rfl,
    fun h => calculateHash_ne_empty _ h.symm⟩

/-! ## Start-up and the block factory -/

/-- C7: the genesis block of `main` has index 0, payload 0 and an empty
`PrevHash`, and its `Hash` is the empty string, not the digest of its fields. -/
theorem genesisBlock_fields :
    (genesisBlock "2026-11-01 19:51:00 +0000 UTC").Index = 0 ∧
    (genesisBlock "2026-11-01 19:51:00 +0000 UTC").Timestamp =
      "2026-11-01 19:51:00 +0000 UTC" ∧
    (genesisBlock "2026-11-01 19:51:00 +0000 UTC").BPM = 0 ∧
    (genesisBlock "2026-11-01 19:51:00 +0000 UTC").PrevHash = "" ∧
    (genesisBlock "2026-11-01 19:51:00 +0000 UTC").Hash = "" ∧
    (calculateHash (genesisBlock "2026-11-01 19:51:00 +0000 UTC")).length = 64 ∧
    (genesisBlock "2026-11-01 19:51:00 +0000 UTC").Hash ≠
      calculateHash ⟨0, "2026-11-01 19:51:00 +0000 UTC", 0, "", ""⟩ :=
  ⟨rfl, rfl, rfl, rfl, rfl, length_calculateHash _, fun h => calculateHash_ne_empty _ h.symm⟩

/-- C8: `generateBlock` returns a nil error and a block whose `Index` is
`oldBlock.Index + 1` (Go's sum, the sum of integers below the largest `int`),
whose `PrevHash` is `oldBlock.Hash`, whose `BPM` is the payload, whose
`Timestamp` is the text of the clock reading and whose `Hash` is `calculateHash`
of the block itself; equal arguments give equal results. -/
theorem generateBlock_spec (oldBlock : Block) (BPM : Int) (now : String) :
    (generateBlock oldBlock BPM now).2 = none ∧
    (generateBlock oldBlock BPM now).1.Index = wrapInt (oldBlock.Index + 1) ∧
    (generateBlock oldBlock BPM now).1.PrevHash = oldBlock.Hash ∧
    (generateBlock oldBlock BPM now).1.BPM = BPM ∧
    (generateBlock oldBlock BPM now).1.Timestamp = now ∧
    (generateBlock oldBlock BPM now).1.Hash = calculateHash (generateBlock oldBlock BPM now).1 ∧
    (-9223372036854775808 ≤ oldBlock.Index ∧ oldBlock.Index < 9223372036854775807 →
      (generateBlock oldBlock BPM now).1.Index = oldBlock.Index + 1) ∧
    (∀ (oldBlock' : Block) (BPM' : Int) (now' : String),
      oldBlock' = oldBlock → BPM' = BPM → now' = now →
      generateBlock oldBlock' BPM' now' = generateBlock oldBlock BPM now) := by
  refine ⟨rfl, rfl, rfl, rfl, rfl, (generateBlock_hash oldBlock BPM now).symm, ?_, ?_⟩
  · intro hr
    show wrapInt (oldBlock.Index + 1) = oldBlock.Index + 1
    unfold wrapInt
    omega
  · rintro _ _ _ rfl rfl rfl
    rfl

/-! ## The preimage of the digest -/

/-- C9: for the block of index 12 and payload 80, the text `calculateHash` hashes
starts with the one character of code point 12 and carries the payload as the
character `P` of code point 80; it is not the text with `12` and `80` in
decimal. -/
theorem record_not_decimal :
    record ⟨12, "2026-11-01 19:52:30 +0000 UTC", 80, "", "ab"⟩ =
      "\x0c2026-11-01 19:52:30 +0000 UTCPab" ∧
    recordDecimal ⟨12, "2026-11-01 19:52:30 +0000 UTC", 80, "", "ab"⟩ =
      "122026-11-01 19:52:30 +0000 UTC80ab" ∧
    record ⟨12, "2026-11-01 19:52:30 +0000 UTC", 80, "", "ab"⟩ ≠
      recordDecimal ⟨12, "2026-11-01 19:52:30 +0000 UTC", 80, "", "ab"⟩ := by
  refine ⟨by decide, by decide, by decide⟩

/-! ## Append-only -/

/-- C10: the chain before a `handleWriteBlock` step is a prefix of the chain after
it: every block already in the chain keeps its position and its fields. -/
theorem handleWriteBlock_append_only (chain : List Block) (decoded : Option Message)
    (now : String) :
    chain <+: (handleWriteBlock chain decoded now).chain ∧
    ∀ (i : Nat) (b : Block), chain[i]? = some b →
      (handleWriteBlock chain decoded now).chain[i]? = some b := by
  rcases handleWriteBlock_chain chain decoded now with heq | ⟨m, last, -, -, heq⟩
  · rw [heq]
    exact ⟨List.prefix_refl _, fun _ _ hb => hb⟩
  · rw [heq]
    refine ⟨List.prefix_append _ _, fun i b hb => ?_⟩
    obtain ⟨hlt, -⟩ := List.getElem?_eq_some.mp hb
    rw [List.getElem?_append_left hlt]
    exact hb

/-! ## The POST handler on an empty chain and on an undecodable body -/

/-- C11: on the empty chain and a decoded payload, `handleWriteBlock` stops on
`Blockchain[len(Blockchain)-1]`, an index out of range: the chain stays empty and
no response is written, neither 500 nor any other. -/
theorem handleWriteBlock_empty_chain_no_response :
    handleWriteBlock [] (some ⟨80⟩) "2026-11-01 19:52:30 +0000 UTC" = ⟨[], none⟩ ∧
    (handleWriteBlock [] (some ⟨80⟩) "2026-11-01 19:52:30 +0000 UTC").response ≠
      some (respondWithJSON 500 (.message ⟨80⟩)) := by
  constructor
  · rfl
  · intro h
    exact Option.noConfusion h

/-- C14: when the body cannot be decoded, `handleWriteBlock` answers 400 and
leaves the chain exactly as it was, whatever the chain. -/
theorem handleWriteBlock_undecodable (chain : List Block) (now : String) :
    (handleWriteBlock chain none now).response = some ⟨400, .requestBody⟩ ∧
    (handleWriteBlock chain none now).chain = chain :=
  ⟨rfl, rfl⟩

/-! ## Indices and previous hashes along a reachable chain -/

set_option maxRecDepth 100000 in
/-- C12: after one POST on the genesis chain the chain holds two blocks, of
indices 0 and 1, and both have the empty `PrevHash`: the second block carries the
`Hash` of the genesis block, which is empty. -/
theorem reachable_blocks_share_prevHash :
    Reachable (handleWriteBlock (appendGenesis [] "2026-11-01 19:51:00 +0000 UTC")
      (some ⟨80⟩) "2026-11-01 19:52:30 +0000 UTC").chain ∧
    (handleWriteBlock (appendGenesis [] "2026-11-01 19:51:00 +0000 UTC")
      (some ⟨80⟩) "2026-11-01 19:52:30 +0000 UTC").chain =
      [⟨0, "2026-11-01 19:51:00 +0000 UTC", 0, "", ""⟩,
       ⟨1, "2026-11-01 19:52:30 +0000 UTC", 80,
        "d6e5dfc0a37395651236e7c13b202fcb9cde661a57ad17de516acc04c0e25073", ""⟩] ∧
    (⟨0, "2026-11-01 19:51:00 +0000 UTC", 0, "", ""⟩ : Block) ≠
      ⟨1, "2026-11-01 19:52:30 +0000 UTC", 80,
        "d6e5dfc0a37395651236e7c13b202fcb9cde661a57ad17de516acc04c0e25073", ""⟩ ∧
    (⟨0, "2026-11-01 19:51:00 +0000 UTC", 0, "", ""⟩ : Block).PrevHash =
      (⟨1, "2026-11-01 19:52:30 +0000 UTC", 80,
        "d6e5dfc0a37395651236e7c13b202fcb9cde661a57ad17de516acc04c0e25073", ""⟩ :
        Block).PrevHash := by
  refine ⟨.post _ _ (.genesis _), by decide!, ?_, rfl⟩
  intro h
  have hidx := congrArg Block.Index h
  revert hidx
  decide

/-! ## The timestamp in the validity check -/

set_option maxRecDepth 100000 in
/-- C13, as stated, fails: the block generated on the genesis block passes
`isBlockValid`, and the block that differs from it in the second of its
`Timestamp` alone does not. -/
theorem isBlockValid_reads_timestamp :
    ¬ (isBlockValid
        ⟨1, "2026-11-01 19:52:30 +0000 UTC", 80,
          "d6e5dfc0a37395651236e7c13b202fcb9cde661a57ad17de516acc04c0e25073", ""⟩
        (genesisBlock "2026-11-01 19:51:00 +0000 UTC") =
      isBlockValid
        ⟨1, "2026-11-01 19:52:31 +0000 UTC", 80,
          "d6e5dfc0a37395651236e7c13b202fcb9cde661a57ad17de516acc04c0e25073", ""⟩
        (genesisBlock "2026-11-01 19:51:00 +0000 UTC")) := by
  decide!

/-- C13, amended: the timestamp enters the validity check through the digest
alone. For a candidate `c` given two timestamps `t1` and `t2`, all other fields
kept, `isBlockValid` gives the same answer on both whenever the digest test
`calculateHash(c) == c.Hash` gives the same answer on both. -/
theorem isBlockValid_timestamp_through_digest (p c : Block) (t1 t2 : String)
    (hd : calculateHash { c with Timestamp := t1 } = c.Hash ↔
      calculateHash { c with Timestamp := t2 } = c.Hash) :
    isBlockValid { c with Timestamp := t1 } p = isBlockValid { c with Timestamp := t2 } p := by
  rw [Bool.eq_iff_iff, isBlockValid_eq_true_iff, isBlockValid_eq_true_iff]
  exact and_congr_right fun _ => and_congr_right fun _ => hd

theorem isBlockValid_timestamp_through_digest_witness :
    isBlockValid
        { (⟨1, "", 80, "", ""⟩ : Block) with Timestamp := "2026-11-01 19:52:30 +0000 UTC" }
        (genesisBlock "2026-11-01 19:51:00 +0000 UTC") =
      isBlockValid
        { (⟨1, "", 80, "", ""⟩ : Block) with Timestamp := "2026-11-01 19:52:31 +0000 UTC" }
        (genesisBlock "2026-11-01 19:51:00 +0000 UTC") :=
  isBlockValid_timestamp_through_digest _ ⟨1, "", 80, "", ""⟩ _ _
    ⟨fun h => absurd h (calculateHash_ne_empty _), fun h => absurd h (calculateHash_ne_empty _)⟩

/-! ## The generated block against the validator -/

/-- C16: whatever the fields of `oldBlock`, the payload and the clock reading, the
block `generateBlock` returns passes `isBlockValid` against `oldBlock`; so on a
chain whose last block is `oldBlock` the validity test of `handleWriteBlock`
takes its true branch and the block is appended. -/
theorem generateBlock_passes_isBlockValid (oldBlock : Block) (BPM : Int) (now : String) :
    isBlockValid (generateBlock oldBlock BPM now).1 oldBlock = true ∧
    ∀ chain : List Block, chain.getLast? = some oldBlock →
      commitStep chain (generateBlock oldBlock BPM now).1 =
        ⟨chain ++ [(generateBlock oldBlock BPM now).1],
          some ⟨201, .block (generateBlock oldBlock BPM now).1⟩⟩ ∧
      (handleWriteBlock chain (some ⟨BPM⟩) now).chain =
        chain ++ [(generateBlock oldBlock BPM now).1] := by
  refine ⟨isBlockValid_generateBlock oldBlock BPM now, fun chain hl => ⟨?_, ?_⟩⟩
  · rw [commitStep_of_last chain _ oldBlock hl, isBlockValid_generateBlock]
    rfl
  · rw [handleWriteBlock_of_last chain ⟨BPM⟩ now oldBlock hl]

/-! ## The payload in the digest -/

set_option maxRecDepth 100000 in
/-- C17: two blocks that agree on `Index`, `Timestamp`, `Hash` and `PrevHash` and
have the payloads 2000000 and 3000000 have the same `record`, hence the same
digest, and both pass `isBlockValid` against the genesis block: neither payload
is a code point and `string` turns both into U+FFFD. -/
theorem record_same_for_different_payloads :
    (2000000 : Int) ≠ 3000000 ∧
    record ⟨1, "2026-11-01 19:52:30 +0000 UTC", 2000000,
        "a054e09c40b4f38451c735c1eb63ca93d45b60a29d46986c5a838f4f55b7b02e", ""⟩ =
      record ⟨1, "2026-11-01 19:52:30 +0000 UTC", 3000000,
        "a054e09c40b4f38451c735c1eb63ca93d45b60a29d46986c5a838f4f55b7b02e", ""⟩ ∧
    calculateHash ⟨1, "2026-11-01 19:52:30 +0000 UTC", 2000000,
        "a054e09c40b4f38451c735c1eb63ca93d45b60a29d46986c5a838f4f55b7b02e", ""⟩ =
      calculateHash ⟨1, "2026-11-01 19:52:30 +0000 UTC", 3000000,
        "a054e09c40b4f38451c735c1eb63ca93d45b60a29d46986c5a838f4f55b7b02e", ""⟩ ∧
    isBlockValid ⟨1, "2026-11-01 19:52:30 +0000 UTC", 2000000,
        "a054e09c40b4f38451c735c1eb63ca93d45b60a29d46986c5a838f4f55b7b02e", ""⟩
      (genesisBlock "2026-11-01 19:51:00 +0000 UTC") = true ∧
    isBlockValid ⟨1, "2026-11-01 19:52:30 +0000 UTC", 3000000,
        "a054e09c40b4f38451c735c1eb63ca93d45b60a29d46986c5a838f4f55b7b02e", ""⟩
      (genesisBlock "2026-11-01 19:51:00 +0000 UTC") = true := by
  have hr : record ⟨1, "2026-11-01 19:52:30 +0000 UTC", 2000000,
        "a054e09c40b4f38451c735c1eb63ca93d45b60a29d46986c5a838f4f55b7b02e", ""⟩ =
      record ⟨1, "2026-11-01 19:52:30 +0000 UTC", 3000000,
        "a054e09c40b4f38451c735c1eb63ca93d45b60a29d46986c5a838f4f55b7b02e", ""⟩ := by
    decide
  refine ⟨by decide, hr, ?_, by decide!, by decide!⟩
  unfold calculateHash
  rw [hr]

/-! ## The length of the chain under replacement -/

/-- C18: after `replaceChain` the chain is the candidate when
`len(candidate) > len(current)` and the current chain otherwise; its length is
the greater of the two lengths and is not below the length it had. -/
theorem replaceChain_length_max (current candidate : List Block) :
    replaceChain current candidate =
      (if candidate.length > current.length then candidate else current) ∧
    (replaceChain current candidate).length = max current.length candidate.length ∧
    current.length ≤ (replaceChain current candidate).length := by
  unfold replaceChain
  by_cases h : candidate.length > current.length
  · simp only [h, if_true]
    refine ⟨trivial, ?_, ?_⟩ <;> omega
  · simp only [h, if_false]
    refine ⟨trivial, ?_, ?_⟩ <;> omega

end Ledger
